import Mathlib

/-!
# Tag-based ownership and discovery of VPC Lattice resources

A shallow embedding of `pkg/aws/cloud.go` (package `aws` of the
aws-application-networking-k8s controller) together with the properties of its
ownership arbitration (`TryOwn`, `TryOwnFromTags`, `IsArnManaged`), its tag codec
(`DefaultTags`, `DefaultTagsMergedWith`) and its discovery in a private VPC
(`FindTagsForARNs`, `FindTargetGroupARNs`, `containsTags`).

Conventions of the embedding.

* `services.Tags` is `map[string]*string`: a finite map with unique keys whose
  values are nullable strings. It is embedded as an association list with unique
  keys (`AList`) over `Option String`; `none` is the nil pointer.
* A nil map or nil slice is embedded as the empty one: every reader in this
  package treats them alike.
* A Go result `(x, err)` is embedded as a pair whose second component is
  `none` for a nil error.
* Every method that talks to a remote service takes the state of the remote
  world and returns the new one next to its result.
-/

namespace Cloud

/-! ## Constants and plain data -/

/-- The Go constant `TagBase`. -/
def TagBase : String := "application-networking.k8s.aws/"

/-- The Go constant `TagManagedBy`, the reserved ownership key. -/
def TagManagedBy : String := TagBase ++ "ManagedBy"

/-- A Go `error` value returned by a remote service. -/
structure Error where
  msg : String
deriving DecidableEq, Repr

/-- The Go type `services.Tags`, that is `map[string]*string`. -/
abbrev Tags := AList (fun _ : String => Option String)

/-- The Go type `map[string]services.Tags`. -/
abbrev TagsByArn := AList (fun _ : String => Tags)

/-- Indexing `m[k]` of a Go map with one result: the zero value (the nil
pointer) when the key is absent. -/
def Tags.index (m : Tags) (k : String) : Option String :=
  match m.lookup k with
  | some v => v
  | none => none

/-- The SDK helper `aws.StringValue`: the pointed-to string, or `""` for nil. -/
def aws.StringValue : Option String → String
  | some s => s
  | none => ""

/-- The SDK helper `aws.String`: a pointer to the given string. -/
def aws.String (s : String) : Option String := some s

/-- The Go struct `CloudConfig`. -/
structure CloudConfig where
  VpcId : String
  AccountId : String
  Region : String
  ClusterName : String
  PrivateVPC : Bool
deriving DecidableEq, Repr

/-- The Go struct `defaultCloud`. Its `lattice` and `tagging` fields are the
clients of the remote services, whose state is the `World` passed to every
method. -/
structure defaultCloud where
  cfg : CloudConfig
  managedByTag : String
deriving DecidableEq, Repr

/-- The Go function `getManagedByTag`: `fmt.Sprintf("%s/%s/%s", ...)`. -/
def getManagedByTag (cfg : CloudConfig) : String :=
  cfg.AccountId ++ "/" ++ cfg.ClusterName ++ "/" ++ cfg.VpcId

/-- The Go constructor `NewDefaultCloud`. -/
def NewDefaultCloud (cfg : CloudConfig) : defaultCloud :=
  { cfg := cfg, managedByTag := getManagedByTag cfg }

/-- The Go constructor `NewDefaultCloudWithTagging`. -/
def NewDefaultCloudWithTagging (cfg : CloudConfig) : defaultCloud :=
  { cfg := cfg, managedByTag := getManagedByTag cfg }

/-- The Go method `Config`. -/
def defaultCloud.Config (c : defaultCloud) : CloudConfig := c.cfg

/-- The Go method `DefaultTags`: a fresh map holding only the ownership tag. -/
def defaultCloud.DefaultTags (c : defaultCloud) : Tags :=
  let tags : Tags := ∅
  tags.insert TagManagedBy (some c.managedByTag)

/-- The assignments `dst[k] = v` for the entries `k, v` of a map, in the order
the entries are visited. -/
def assignAll (dst : Tags) : List (Sigma (fun _ : String => Option String)) → Tags
  | [] => dst
  | ⟨k, v⟩ :: rest => assignAll (dst.insert k v) rest

/-- The Go method `getManagedByFromTags`. -/
def defaultCloud.getManagedByFromTags (_c : defaultCloud) (tags : Tags) : String :=
  match tags.lookup TagManagedBy with
  | none => ""
  | some none => ""
  | some (some tag) => tag

/-- The Go method `isOwner`. -/
def defaultCloud.isOwner (c : defaultCloud) (managedBy : String) : Bool :=
  decide (managedBy = c.managedByTag)

/-- The loop of `containsTags` over the entries of `source`, with its early
return. -/
def containsTagsLoop (check : Tags) : List (Sigma (fun _ : String => Option String)) → Bool
  | [] => true
  | ⟨k, v⟩ :: rest =>
    if aws.StringValue (check.index k) ≠ aws.StringValue v then false
    else containsTagsLoop check rest

/-- The Go function `containsTags`. -/
def containsTags (source check : Tags) : Bool :=
  containsTagsLoop check source.entries

/-! ## Go maps as references

`DefaultTagsMergedWith` writes into a map. To say which map is written, maps
live in a heap and are passed by reference, as in Go. -/

/-- A heap of Go maps of type `services.Tags`; the address of a map is its
position. -/
structure Heap where
  cells : List Tags

/-- A Go value of type `services.Tags`: nil, or the address of a map. -/
abbrev MapRef := Option Nat

/-- The content of the map behind a reference; the nil map reads as empty. -/
def Heap.read (h : Heap) : MapRef → Tags
  | none => ∅
  | some i => h.cells.getD i ∅

/-- A reference is valid in a heap when it is nil or points to an allocated
map. -/
def Heap.valid (h : Heap) : MapRef → Prop
  | none => True
  | some i => i < h.cells.length

/-- The effect of `make`, or of a map literal: a new map at a fresh address. -/
def Heap.alloc (h : Heap) (content : Tags) : Nat × Heap :=
  (h.cells.length, { cells := h.cells ++ [content] })

/-- The assignment `dst[k] = v` on the map at address `dst`. -/
def Heap.assign (h : Heap) (dst : Nat) (k : String) (v : Option String) : Heap :=
  { cells := h.cells.set dst ((h.cells.getD dst ∅).insert k v) }

/-- The loop of `maps.Copy`: `dst[k] = v` for every visited entry. -/
def maps.CopyLoop (h : Heap) (dst : Nat) : List (Sigma (fun _ : String => Option String)) → Heap
  | [] => h
  | ⟨k, v⟩ :: rest => maps.CopyLoop (h.assign dst k v) dst rest

/-- The library function `maps.Copy(dst, src)` of `golang.org/x/exp/maps`:
`for k, v := range src { dst[k] = v }`. -/
def maps.Copy (h : Heap) (dst : Nat) (src : MapRef) : Heap :=
  maps.CopyLoop h dst (h.read src).entries

/-- The Go method `DefaultTagsMergedWith`. The call of `DefaultTags` allocates
the map it returns. Result: the returned reference and the heap afterwards. -/
def defaultCloud.DefaultTagsMergedWith (c : defaultCloud) (h : Heap) (tags : MapRef) :
    MapRef × Heap :=
  let (newTags, h1) := h.alloc c.DefaultTags
  let h2 := maps.Copy h1 newTags tags
  (some newTags, h2)

/-! ## The remote services -/

/-- The Go struct `vpclattice.TargetGroupSummary`, with the fields that identify
a target group. -/
structure TargetGroupSummary where
  Arn : Option String
  Id : Option String
  Name : Option String
deriving DecidableEq, Repr

/-- Modelled from the spec: the resource-type discriminator `services.ResourceType`
of the bulk tagging API, with the two kinds of resource the spec names. -/
inductive ResourceType where
  | ResourceTypeTargetGroup
  | ResourceTypeService
deriving DecidableEq, Repr

/-- A request sent to a remote service. -/
inductive Call where
  | ListTagsForResource (resourceArn : Option String)
  | TagResource (resourceArn : Option String) (tags : Tags)
  | ListTargetGroupsAsList (vpcIdentifier : Option String)
  | GetTagsForArns (arns : List String)
  | FindResourcesByTags (resourceType : ResourceType) (tags : Tags)
deriving DecidableEq

/-- Tag writes. -/
def Call.isWrite : Call → Bool
  | Call.TagResource _ _ => true
  | _ => false

/-- Calls of the bulk tagging API (`services.Tagging`). -/
def Call.isTagging : Call → Bool
  | Call.GetTagsForArns _ => true
  | Call.FindResourcesByTags _ _ => true
  | _ => false

/-- Modelled from the spec: the remote services behind `services.Lattice` and
`services.Tagging`, which are not part of the source at hand. The tags live on
the remote resource (`tags`, by resource ARN); `targetGroups` is the listing of
target groups by VPC identifier; `bulkTags` and `bulkFind` are the answers of
the bulk tagging API. Any call may fail with a transport error: `faults` is the
outcome of the upcoming calls, one entry per call, `none` or a missing entry for
a call that succeeds. `calls` records the requests received so far, oldest
first. -/
structure World where
  tags : Option String → Tags
  targetGroups : Option String → List TargetGroupSummary
  bulkTags : List String → TagsByArn
  bulkFind : ResourceType → Tags → List String
  faults : List (Option Error)
  calls : List Call

/-- Modelled from the spec: a request reaches the remote service. It is recorded
and consumes the next scheduled outcome, which is returned. -/
def World.receive (w : World) (call : Call) : Option Error × World :=
  (w.faults.head?.join, { w with faults := w.faults.tail, calls := w.calls ++ [call] })

/-- Modelled from the spec: `PerResourceTagAccess.GetTags`, the method
`ListTagsForResourceWithContext` of `services.Lattice`. It answers the tags
stored on the resource, or fails with a transport error. -/
def Lattice.ListTagsForResourceWithContext (w : World) (resourceArn : Option String) :
    Except Error Tags × World :=
  match w.receive (Call.ListTagsForResource resourceArn) with
  | (some err, w1) => (Except.error err, w1)
  | (none, w1) => (Except.ok (w.tags resourceArn), w1)

/-- Modelled from the spec: `PerResourceTagAccess.SetTags`, the method
`TagResourceWithContext` of `services.Lattice`. It is additive: the given tags
are merged into the stored ones, the given value winning on a key both have, and
keys that are not given are untouched. A failed write changes nothing. -/
def Lattice.TagResourceWithContext (w : World) (resourceArn : Option String) (tags : Tags) :
    Except Error Unit × World :=
  match w.receive (Call.TagResource resourceArn tags) with
  | (some err, w1) => (Except.error err, w1)
  | (none, w1) =>
    (Except.ok (),
      { w1 with tags := fun arn =>
          if arn = resourceArn then assignAll (w1.tags arn) tags.entries else w1.tags arn })

/-- Modelled from the spec: `PerResourceTagAccess.ListAllRefs`, the method
`ListTargetGroupsAsList` of `services.Lattice`: the full listing of the target
groups of a VPC, or a transport error. -/
def Lattice.ListTargetGroupsAsList (w : World) (vpcIdentifier : Option String) :
    Except Error (List TargetGroupSummary) × World :=
  match w.receive (Call.ListTargetGroupsAsList vpcIdentifier) with
  | (some err, w1) => (Except.error err, w1)
  | (none, w1) => (Except.ok (w.targetGroups vpcIdentifier), w1)

/-- Modelled from the spec: `BulkTagQuery.GetTagsForRefs`, the method
`GetTagsForArns` of `services.Tagging`. -/
def Tagging.GetTagsForArns (w : World) (arns : List String) :
    (TagsByArn × Option Error) × World :=
  match w.receive (Call.GetTagsForArns arns) with
  | (some err, w1) => ((∅, some err), w1)
  | (none, w1) => ((w.bulkTags arns, none), w1)

/-- Modelled from the spec: `BulkTagQuery.FindRefsByTags`, the method
`FindResourcesByTags` of `services.Tagging`. -/
def Tagging.FindResourcesByTags (w : World) (resourceType : ResourceType) (tags : Tags) :
    (List String × Option Error) × World :=
  match w.receive (Call.FindResourcesByTags resourceType tags) with
  | (some err, w1) => (([], some err), w1)
  | (none, w1) => ((w.bulkFind resourceType tags, none), w1)

/-! ## The methods that talk to the remote services -/

/-- The loop of `FindTagsForARNs` in a private VPC; `tagsForARNs` is the map
built so far. -/
def defaultCloud.FindTagsForARNsLoop (c : defaultCloud) (w : World) (tagsForARNs : TagsByArn) :
    List String → (TagsByArn × Option Error) × World
  | [] => ((tagsForARNs, none), w)
  | arn :: rest =>
    match Lattice.ListTagsForResourceWithContext w (aws.String arn) with
    | (Except.error err, w1) => ((∅, some err), w1)
    | (Except.ok tags, w1) => c.FindTagsForARNsLoop w1 (tagsForARNs.insert arn tags) rest

/-- The Go method `FindTagsForARNs`. -/
def defaultCloud.FindTagsForARNs (c : defaultCloud) (w : World) (arns : List String) :
    (TagsByArn × Option Error) × World :=
  if !c.cfg.PrivateVPC then
    Tagging.GetTagsForArns w arns
  else
    c.FindTagsForARNsLoop w ∅ arns

/-- The loop of `FindTargetGroupARNs` in a private VPC; `arns` is the slice
built so far. -/
def defaultCloud.FindTargetGroupARNsLoop (c : defaultCloud) (tags : Tags) (w : World)
    (arns : List String) : List TargetGroupSummary → (List String × Option Error) × World
  | [] => ((arns, none), w)
  | tg :: rest =>
    match Lattice.ListTagsForResourceWithContext w tg.Arn with
    | (Except.error err, w1) => (([], some err), w1)
    | (Except.ok respTags, w1) =>
      if containsTags tags respTags then
        c.FindTargetGroupARNsLoop tags w1 (arns ++ [aws.StringValue tg.Arn]) rest
      else
        c.FindTargetGroupARNsLoop tags w1 arns rest

/-- The Go method `FindTargetGroupARNs`. -/
def defaultCloud.FindTargetGroupARNs (c : defaultCloud) (w : World) (tags : Tags) :
    (List String × Option Error) × World :=
  if !c.cfg.PrivateVPC then
    Tagging.FindResourcesByTags w ResourceType.ResourceTypeTargetGroup tags
  else
    match Lattice.ListTargetGroupsAsList w (aws.String c.cfg.VpcId) with
    | (Except.error err, w1) => (([], some err), w1)
    | (Except.ok tgs, w1) => c.FindTargetGroupARNsLoop tags w1 [] tgs

/-- The Go method `getTags`. -/
def defaultCloud.getTags (_c : defaultCloud) (w : World) (arn : String) :
    (Tags × Option Error) × World :=
  match Lattice.ListTagsForResourceWithContext w (some arn) with
  | (Except.error err, w1) => ((∅, some err), w1)
  | (Except.ok respTags, w1) => ((respTags, none), w1)

/-- The Go method `ownResource`. -/
def defaultCloud.ownResource (c : defaultCloud) (w : World) (arn : String) :
    Option Error × World :=
  match Lattice.TagResourceWithContext w (some arn) c.DefaultTags with
  | (Except.error err, w1) => (some err, w1)
  | (Except.ok _, w1) => (none, w1)

/-- The Go method `IsArnManaged`. -/
def defaultCloud.IsArnManaged (c : defaultCloud) (w : World) (arn : String) :
    (Bool × Option Error) × World :=
  match c.getTags w arn with
  | ((_, some err), w1) => ((false, some err), w1)
  | ((tags, none), w1) => ((c.isOwner (c.getManagedByFromTags tags), none), w1)

/-- The Go method `TryOwnFromTags`. -/
def defaultCloud.TryOwnFromTags (c : defaultCloud) (w : World) (arn : String) (tags : Tags) :
    (Bool × Option Error) × World :=
  let managedBy := c.getManagedByFromTags tags
  if managedBy = "" then
    match c.ownResource w arn with
    | (some err, w1) => ((false, some err), w1)
    | (none, w1) => ((true, none), w1)
  else
    ((c.isOwner managedBy, none), w)

/-- The Go method `TryOwn`. -/
def defaultCloud.TryOwn (c : defaultCloud) (w : World) (arn : String) :
    (Bool × Option Error) × World :=
  match c.getTags w arn with
  | ((_, some err), w1) => ((false, some err), w1)
  | ((tags, none), w1) => c.TryOwnFromTags w1 arn tags

/-- The next `n` calls to the remote services succeed. -/
def World.nextSucceed (w : World) (n : Nat) : Prop :=
  ∀ f ∈ w.faults.take n, f = none

/-! ## Concrete identities and states used in the examples -/

/-- The identity with account `1`, cluster `c` and VPC `v`, in a private VPC. -/
def identityA : CloudConfig :=
  { VpcId := "v", AccountId := "1", Region := "us-west-2", ClusterName := "c", PrivateVPC := true }

/-- The identity with account `2`, cluster `c` and VPC `v`, in a private VPC. -/
def identityB : CloudConfig :=
  { VpcId := "v", AccountId := "2", Region := "us-west-2", ClusterName := "c", PrivateVPC := true }

/-- A heap whose only map is the user tag set with `Name = foo`. -/
def heapWithName : Heap :=
  { cells := [AList.singleton "Name" (some "foo")] }

/-- A world with no resource, in which every call succeeds and none was made. -/
def quietWorld : World :=
  { tags := fun _ => ∅
    targetGroups := fun _ => []
    bulkTags := fun _ => ∅
    bulkFind := fun _ _ => []
    faults := []
    calls := [] }

/-- The identity whose token is `222222/clusterA/vpc-a`. -/
def identityClusterA : CloudConfig :=
  { VpcId := "vpc-a", AccountId := "222222", Region := "us-west-2", ClusterName := "clusterA",
    PrivateVPC := false }

/-- A tag set owned by the token `111111/clusterB/vpc-b`. -/
def tagsOfClusterB : Tags :=
  AList.singleton TagManagedBy (some "111111/clusterB/vpc-b")

/-- A world in which the next call fails. -/
def throttledWorld : World :=
  { quietWorld with faults := [some { msg := "throttled" }] }

/-- A world in which the next call succeeds and the one after it fails. -/
def deniedWriteWorld : World :=
  { quietWorld with faults := [none, some { msg := "access denied" }] }

/-- A world in which the resource `arn:R` is owned by `1/c/v` and carries one
more tag. -/
def ownedWorld : World :=
  { quietWorld with
    tags := fun arn =>
      if arn = some "arn:R" then
        (AList.singleton "Name" (some "foo")).insert TagManagedBy (some "1/c/v")
      else ∅ }

/-- A world with three target groups in the VPC `v`: `arn:tg1` tagged
`app = x, env = prod`, `arn:tg2` tagged `app = y`, and `arn:tg3` tagged
`app = x`. -/
def fleetWorld : World :=
  { quietWorld with
    tags := fun arn =>
      if arn = some "arn:tg1" then
        (AList.singleton "env" (some "prod")).insert "app" (some "x")
      else if arn = some "arn:tg2" then AList.singleton "app" (some "y")
      else if arn = some "arn:tg3" then AList.singleton "app" (some "x")
      else ∅
    targetGroups := fun vpc =>
      if vpc = some "v" then
        [{ Arn := some "arn:tg1", Id := some "tg1", Name := some "web" },
          { Arn := some "arn:tg2", Id := some "tg2", Name := some "batch" },
          { Arn := some "arn:tg3", Id := some "tg3", Name := some "api" }]
      else [] }

/-- The world `fleetWorld` when the second call to come fails. -/
def flakyFleetWorld : World :=
  { fleetWorld with faults := [none, some { msg := "throttled" }] }

/-! ## Statements in the words of the specification -/

/-- The state `Unclaimed` of the specification: the ManagedBy value of the tag
set is empty, the key being absent, its value null, or the empty string. -/
def Unclaimed (tags : Tags) : Prop :=
  tags.lookup TagManagedBy = none ∨ tags.lookup TagManagedBy = some none ∨
    tags.lookup TagManagedBy = some (some "")

/-- The tag superset test as the specification words it: every key of the query
is present in the candidate, with a string-equal value. -/
def SupersetAsSpecified (query candidate : Tags) : Prop :=
  ∀ k v, query.lookup k = some v →
    ∃ v1, candidate.lookup k = some v1 ∧ aws.StringValue v1 = aws.StringValue v

/-! ## Maps: assignment loops -/

theorem lookup_assignAll (k : String) :
    ∀ (es : List (Sigma (fun _ : String => Option String))) (dst : Tags), es.NodupKeys →
      (assignAll dst es).lookup k =
        match es.dlookup k with
        | some v => some v
        | none => dst.lookup k
  | [], dst, _ => by simp [assignAll]
  | ⟨a, b⟩ :: rest, dst, hnd => by
    have hrest : rest.NodupKeys := List.nodupKeys_of_nodupKeys_cons hnd
    have ha : a ∉ rest.keys := List.not_mem_keys_of_nodupKeys_cons hnd
    rw [assignAll, lookup_assignAll k rest _ hrest]
    by_cases hk : k = a
    · subst hk
      rw [List.dlookup_eq_none.mpr ha, List.dlookup_cons_eq]
      simp
    · rw [List.dlookup_cons_ne rest ⟨a, b⟩ hk, AList.lookup_insert_ne hk]

theorem lookup_assignAll_entries (k : String) (dst src : Tags) :
    (assignAll dst src.entries).lookup k =
      match src.lookup k with
      | some v => some v
      | none => dst.lookup k :=
  lookup_assignAll k src.entries dst src.nodupKeys

theorem getManagedByTag_ne_empty (cfg : CloudConfig) : getManagedByTag cfg ≠ "" := by
  intro h
  have hl := congrArg String.length h
  simp only [getManagedByTag, String.length_append] at hl
  have hslash : ("/" : String).length = 1 := by decide
  have hempty : ("" : String).length = 0 := by decide
  omega

theorem containsTagsLoop_iff (check : Tags) :
    ∀ es : List (Sigma (fun _ : String => Option String)),
      containsTagsLoop check es = true ↔
        ∀ e ∈ es, aws.StringValue (check.index e.1) = aws.StringValue e.2
  | [] => by simp [containsTagsLoop]
  | ⟨k, v⟩ :: rest => by
    by_cases h : aws.StringValue (check.index k) = aws.StringValue v
    · simp [containsTagsLoop, h, containsTagsLoop_iff check rest]
    · simp [containsTagsLoop, h]

theorem index_insert_ne (m : Tags) (k k1 : String) (v : Option String) (h : k1 ≠ k) :
    Tags.index (m.insert k v) k1 = Tags.index m k1 := by
  simp [Tags.index, AList.lookup_insert_ne h]

theorem set_getD_self (l : List Tags) (i : Nat) (hi : i < l.length) :
    l.set i (l.getD i ∅) = l := by
  apply List.ext_getElem?
  intro n
  by_cases hn : i = n
  · subst hn
    rw [List.getElem?_set_self hi, List.getD_eq_getElem _ _ hi, List.getElem?_eq_getElem hi]
  · simp [List.getElem?_set_ne hn]

theorem CopyLoop_cells (dst : Nat) :
    ∀ (es : List (Sigma (fun _ : String => Option String))) (h : Heap), dst < h.cells.length →
      (maps.CopyLoop h dst es).cells = h.cells.set dst (assignAll (h.cells.getD dst ∅) es)
  | [], h, hd => by
    rw [maps.CopyLoop, assignAll, set_getD_self _ _ hd]
  | ⟨k, v⟩ :: rest, h, hd => by
    have hd1 : dst < (h.assign dst k v).cells.length := by simpa [Heap.assign] using hd
    rw [maps.CopyLoop, CopyLoop_cells dst rest (h.assign dst k v) hd1]
    simp [Heap.assign, assignAll, List.set_set, hd]

theorem read_alloc_of_valid (h : Heap) (content : Tags) (r : MapRef) (hr : h.valid r) :
    (h.alloc content).2.read r = h.read r := by
  cases r with
  | none => rfl
  | some i =>
    have hi : i < h.cells.length := hr
    simp [Heap.read, Heap.alloc, List.getElem?_append_left hi]

theorem DefaultTagsMergedWith_eq (c : defaultCloud) (h : Heap) (u : MapRef) (hu : h.valid u) :
    c.DefaultTagsMergedWith h u =
      (some h.cells.length,
        { cells := h.cells ++ [assignAll c.DefaultTags (h.read u).entries] }) := by
  have hlen : h.cells.length < (h.alloc c.DefaultTags).2.cells.length := by
    simp [Heap.alloc]
  have hcells := CopyLoop_cells h.cells.length (h.read u).entries (h.alloc c.DefaultTags).2 hlen
  have hread := read_alloc_of_valid h c.DefaultTags u hu
  simp only [defaultCloud.DefaultTagsMergedWith, maps.Copy, Heap.alloc] at *
  rw [hread]
  generalize maps.CopyLoop _ _ _ = h2 at *
  cases h2 with
  | mk cells2 =>
    simp only at hcells
    rw [hcells]
    simp

/-! ## The tag codec -/

/-- C8: for every identity and every user tag set `u` (a valid reference, nil
included), `DefaultTagsMergedWith` returns a new map, not one of the maps that
existed before the call; every map that existed before, `u` among them, is left
unmodified; the key set of the new map is the key set of `u` together with the
reserved ManagedBy key; every key of `u` carries the value of `u`, also on the
ManagedBy key; and ManagedBy carries the token of the identity when `u` has no
ManagedBy key. -/
theorem DefaultTagsMergedWith_merges_defaults (cfg : CloudConfig) (h : Heap) (u : MapRef)
    (hu : h.valid u) :
    (∃ r, ((NewDefaultCloudWithTagging cfg).DefaultTagsMergedWith h u).1 = some r ∧
        ¬ h.valid (some r) ∧
        ((NewDefaultCloudWithTagging cfg).DefaultTagsMergedWith h u).2.valid (some r)) ∧
    (∀ r, h.valid r →
        ((NewDefaultCloudWithTagging cfg).DefaultTagsMergedWith h u).2.read r = h.read r) ∧
    (∀ k, k ∈ (((NewDefaultCloudWithTagging cfg).DefaultTagsMergedWith h u).2.read
          ((NewDefaultCloudWithTagging cfg).DefaultTagsMergedWith h u).1).keys ↔
        k ∈ (h.read u).keys ∨ k = TagManagedBy) ∧
    (∀ k v, (h.read u).lookup k = some v →
        (((NewDefaultCloudWithTagging cfg).DefaultTagsMergedWith h u).2.read
          ((NewDefaultCloudWithTagging cfg).DefaultTagsMergedWith h u).1).lookup k = some v) ∧
    ((h.read u).lookup TagManagedBy = none →
        (((NewDefaultCloudWithTagging cfg).DefaultTagsMergedWith h u).2.read
          ((NewDefaultCloudWithTagging cfg).DefaultTagsMergedWith h u).1).lookup TagManagedBy =
            some (some (getManagedByTag cfg))) := by
  rw [DefaultTagsMergedWith_eq _ h u hu]
  have hnew : Heap.read
      { cells := h.cells ++
          [assignAll (NewDefaultCloudWithTagging cfg).DefaultTags (h.read u).entries] }
      (some h.cells.length) =
        assignAll (NewDefaultCloudWithTagging cfg).DefaultTags (h.read u).entries := by
    simp [Heap.read]
  have hdef : ∀ k, (NewDefaultCloudWithTagging cfg).DefaultTags.lookup k =
      if k = TagManagedBy then some (some (getManagedByTag cfg)) else none := by
    intro k
    by_cases hk : k = TagManagedBy
    · subst hk
      show ((∅ : Tags).insert TagManagedBy (some (getManagedByTag cfg))).lookup TagManagedBy = _
      rw [AList.lookup_insert]
      simp
    · show ((∅ : Tags).insert TagManagedBy (some (getManagedByTag cfg))).lookup k = _
      rw [AList.lookup_insert_ne hk, AList.lookup_empty]
      simp [hk]
  refine ⟨⟨h.cells.length, rfl, ?_, ?_⟩, ?_, ?_, ?_, ?_⟩
  · simp [Heap.valid]
  · simp [Heap.valid]
  · intro r hr
    cases r with
    | none => rfl
    | some i =>
      have hi : i < h.cells.length := hr
      simp [Heap.read, List.getElem?_append_left hi]
  · intro k
    simp only [hnew]
    rw [← AList.mem_keys, ← AList.mem_keys, ← AList.lookup_isSome, ← AList.lookup_isSome,
      lookup_assignAll_entries, hdef]
    cases hl : (h.read u).lookup k with
    | some v => simp
    | none => by_cases hk : k = TagManagedBy <;> simp [hk]
  · intro k v hk
    simp only [hnew]
    rw [lookup_assignAll_entries, hk]
  · intro hk
    simp only [hnew]
    rw [lookup_assignAll_entries, hk, hdef]
    simp

/-- C8, the example of the claim: merging the user tag set with `Name = foo`
for the identity `1/c/v` yields a new map holding `Name = foo` and the ManagedBy
default, the user tag set being left as it was. -/
theorem DefaultTagsMergedWith_merges_defaults_witness :
    heapWithName.valid (some 0) ∧
      ((NewDefaultCloudWithTagging identityA).DefaultTagsMergedWith heapWithName (some 0)).1 =
        some 1 ∧
      (((NewDefaultCloudWithTagging identityA).DefaultTagsMergedWith heapWithName (some 0)).2.read
        (some 1)).entries = [⟨"Name", some "foo"⟩, ⟨TagManagedBy, some "1/c/v"⟩] ∧
      ((NewDefaultCloudWithTagging identityA).DefaultTagsMergedWith heapWithName (some 0)).2.read
        (some 0) = heapWithName.read (some 0) ∧
      (((NewDefaultCloudWithTagging identityA).DefaultTagsMergedWith heapWithName (some 0)).2.read
        ((NewDefaultCloudWithTagging identityA).DefaultTagsMergedWith heapWithName (some 0)).1).lookup
          "Name" = some (some "foo") :=
  ⟨Nat.zero_lt_one, by decide, by decide, by rfl,
    (DefaultTagsMergedWith_merges_defaults identityA heapWithName (some 0) Nat.zero_lt_one).2.2.2.1
      "Name" (some "foo") (by decide)⟩

/-! ## The tag superset test -/

/-- C5, as stated, fails: a query entry whose value is the empty string, or
null, is matched by a candidate that has no such key, although the key is not
present in the candidate. -/
theorem containsTags_absent_key_matches :
    (containsTags (AList.singleton "app" (some "")) ∅ = true ∧
        ¬ SupersetAsSpecified (AList.singleton "app" (some "")) ∅) ∧
      (containsTags (AList.singleton "app" none) ∅ = true ∧
        ¬ SupersetAsSpecified (AList.singleton "app" none) ∅) := by
  refine ⟨⟨by decide, ?_⟩, ⟨by decide, ?_⟩⟩
  · intro h
    obtain ⟨v1, hv, _⟩ := h "app" (some "") (by decide)
    simp at hv
  · intro h
    obtain ⟨v1, hv, _⟩ := h "app" none (by decide)
    simp at hv

/-- C5, amended: `containsTags query candidate` is true exactly when, for every
key of the query, the value the candidate has for that key, read as the empty
string when the key is absent or its value is null, is string-equal to the
value of the query read the same way; and a candidate key that is not a key of
the query is ignored. -/
theorem containsTags_iff_values_agree (query candidate : Tags) :
    (containsTags query candidate = true ↔
      ∀ k v, query.lookup k = some v →
        aws.StringValue (candidate.index k) = aws.StringValue v) ∧
    (∀ k v, k ∉ query.keys →
      containsTags query (candidate.insert k v) = containsTags query candidate) := by
  have key : ∀ cand : Tags, containsTags query cand = true ↔
      ∀ k v, query.lookup k = some v →
        aws.StringValue (cand.index k) = aws.StringValue v := by
    intro cand
    rw [containsTags, containsTagsLoop_iff]
    constructor
    · intro h k v hk
      exact h ⟨k, v⟩ (AList.mem_lookup_iff.mp hk)
    · intro h e he
      exact h e.1 e.2 (AList.mem_lookup_iff.mpr he)
  refine ⟨key candidate, ?_⟩
  intro k v hk
  rw [Bool.eq_iff_iff, key, key]
  have hne : ∀ k1 v1, query.lookup k1 = some v1 → k1 ≠ k := by
    intro k1 v1 h1 h2
    subst h2
    have : k1 ∈ query := AList.lookup_isSome.mp (by simp [h1])
    exact hk (AList.mem_keys.mp this)
  constructor
  · intro h k1 v1 h1
    rw [← index_insert_ne candidate k k1 v (hne k1 v1 h1)]
    exact h k1 v1 h1
  · intro h k1 v1 h1
    rw [index_insert_ne candidate k k1 v (hne k1 v1 h1)]
    exact h k1 v1 h1

/-- C5, the examples of the claim: the query `app = x` matches a candidate with
`app = x` and `env = prod`, and matches neither `app = y` nor the empty tag
set. -/
theorem containsTags_iff_values_agree_witness :
    containsTags (AList.singleton "app" (some "x"))
        ((AList.singleton "app" (some "x")).insert "env" (some "prod")) = true ∧
      containsTags (AList.singleton "app" (some "x")) (AList.singleton "app" (some "y")) = false ∧
      containsTags (AList.singleton "app" (some "x")) ∅ = false ∧
      containsTags (AList.singleton "app" (some "x"))
        ((AList.singleton "app" (some "x")).insert "env" (some "prod")) =
          containsTags (AList.singleton "app" (some "x")) (AList.singleton "app" (some "x")) :=
  ⟨by decide, by decide, by decide,
    (containsTags_iff_values_agree (AList.singleton "app" (some "x"))
      (AList.singleton "app" (some "x"))).2 "env" (some "prod") (by decide)⟩

/-! ## Ownership arbitration -/

theorem TagResource_ok (w : World) (arn : Option String) (tags : Tags)
    (hok : (Lattice.TagResourceWithContext w arn tags).1 = Except.ok ()) :
    Lattice.TagResourceWithContext w arn tags =
      (Except.ok (),
        { w with
          faults := w.faults.tail
          calls := w.calls ++ [Call.TagResource arn tags]
          tags := fun a => if a = arn then assignAll (w.tags a) tags.entries else w.tags a }) := by
  unfold Lattice.TagResourceWithContext World.receive at *
  cases hf : w.faults.head?.join with
  | some e =>
    rw [hf] at hok
    cases hok
  | none => rfl

theorem getManagedByFromTags_eq (c : defaultCloud) (tags : Tags) :
    c.getManagedByFromTags tags = aws.StringValue (Tags.index tags TagManagedBy) := by
  unfold defaultCloud.getManagedByFromTags Tags.index
  cases h : tags.lookup TagManagedBy with
  | none => rfl
  | some v => cases v <;> rfl

theorem getManagedByFromTags_eq_empty_iff (c : defaultCloud) (tags : Tags) :
    c.getManagedByFromTags tags = "" ↔ Unclaimed tags := by
  unfold defaultCloud.getManagedByFromTags Unclaimed
  cases h : tags.lookup TagManagedBy with
  | none => simp
  | some v =>
    cases v with
    | none => simp
    | some m => simp

theorem ListTags_fail (w : World) (arn : Option String) (e : Error)
    (h : w.faults.head?.join = some e) :
    Lattice.ListTagsForResourceWithContext w arn =
      (Except.error e, (w.receive (Call.ListTagsForResource arn)).2) := by
  unfold Lattice.ListTagsForResourceWithContext World.receive
  rw [h]

theorem ListTags_succeed (w : World) (arn : Option String) (h : w.faults.head?.join = none) :
    Lattice.ListTagsForResourceWithContext w arn =
      (Except.ok (w.tags arn), (w.receive (Call.ListTagsForResource arn)).2) := by
  unfold Lattice.ListTagsForResourceWithContext World.receive
  rw [h]

theorem TagResource_fail (w : World) (arn : Option String) (tags : Tags) (e : Error)
    (h : w.faults.head?.join = some e) :
    Lattice.TagResourceWithContext w arn tags =
      (Except.error e, (w.receive (Call.TagResource arn tags)).2) := by
  unfold Lattice.TagResourceWithContext World.receive
  rw [h]

theorem TagResource_succeed (w : World) (arn : Option String) (tags : Tags)
    (h : w.faults.head?.join = none) :
    Lattice.TagResourceWithContext w arn tags =
      (Except.ok (),
        { (w.receive (Call.TagResource arn tags)).2 with
          tags := fun a => if a = arn then assignAll (w.tags a) tags.entries else w.tags a }) := by
  unfold Lattice.TagResourceWithContext World.receive
  rw [h]

theorem DefaultTags_entries (cfg : CloudConfig) :
    (NewDefaultCloudWithTagging cfg).DefaultTags.entries =
      [⟨TagManagedBy, some (getManagedByTag cfg)⟩] := by
  simp [defaultCloud.DefaultTags, NewDefaultCloudWithTagging]

/-- C1: for every identity, resource and tag set whose ManagedBy value is empty
(key absent, value null, or empty string), if the additive tag write of the
gateway succeeds then `TryOwnFromTags` returns `(true, nil)`, issues exactly
one call, the write of the one-entry tag set that maps ManagedBy to the token
`accountId/clusterName/vpcId`, and afterwards the stored tags of the resource
have ManagedBy equal to the token and every other key unchanged (the tags of
every other resource are unchanged as well). -/
theorem TryOwnFromTags_unclaimed_claims (cfg : CloudConfig) (w : World) (arn : String)
    (tags : Tags)
    (hempty : Unclaimed tags)
    (hok : (Lattice.TagResourceWithContext w (some arn)
      (NewDefaultCloudWithTagging cfg).DefaultTags).1 = Except.ok ()) :
    ((NewDefaultCloudWithTagging cfg).TryOwnFromTags w arn tags).1 = (true, none) ∧
    ((NewDefaultCloudWithTagging cfg).TryOwnFromTags w arn tags).2.calls =
      w.calls ++ [Call.TagResource (some arn) (NewDefaultCloudWithTagging cfg).DefaultTags] ∧
    (NewDefaultCloudWithTagging cfg).DefaultTags.entries =
      [⟨TagManagedBy, some (cfg.AccountId ++ "/" ++ cfg.ClusterName ++ "/" ++ cfg.VpcId)⟩] ∧
    (((NewDefaultCloudWithTagging cfg).TryOwnFromTags w arn tags).2.tags (some arn)).lookup
      TagManagedBy = some (some (cfg.AccountId ++ "/" ++ cfg.ClusterName ++ "/" ++ cfg.VpcId)) ∧
    (∀ k, k ≠ TagManagedBy →
      (((NewDefaultCloudWithTagging cfg).TryOwnFromTags w arn tags).2.tags (some arn)).lookup k =
        (w.tags (some arn)).lookup k) ∧
    (∀ other, other ≠ some arn →
      ((NewDefaultCloudWithTagging cfg).TryOwnFromTags w arn tags).2.tags other =
        w.tags other) := by
  have hm : (NewDefaultCloudWithTagging cfg).getManagedByFromTags tags = "" :=
    (getManagedByFromTags_eq_empty_iff _ tags).mpr hempty
  have hrun : (NewDefaultCloudWithTagging cfg).TryOwnFromTags w arn tags =
      ((true, none),
        { w with
          faults := w.faults.tail
          calls := w.calls ++
            [Call.TagResource (some arn) (NewDefaultCloudWithTagging cfg).DefaultTags]
          tags := fun a =>
            if a = some arn then
              assignAll (w.tags a) (NewDefaultCloudWithTagging cfg).DefaultTags.entries
            else w.tags a }) := by
    simp only [defaultCloud.TryOwnFromTags, hm, if_true, defaultCloud.ownResource,
      TagResource_ok w (some arn) _ hok]
  rw [hrun]
  refine ⟨rfl, rfl, DefaultTags_entries cfg, ?_, ?_, ?_⟩
  · simp only [if_true]
    rw [lookup_assignAll, DefaultTags_entries]
    · simp [List.dlookup_cons_eq, getManagedByTag]
    · exact (NewDefaultCloudWithTagging cfg).DefaultTags.nodupKeys
  · intro k hk
    simp only [if_true]
    rw [lookup_assignAll, DefaultTags_entries]
    · rw [List.dlookup_cons_ne _ _ hk]
      simp
    · exact (NewDefaultCloudWithTagging cfg).DefaultTags.nodupKeys
  · intro other hother
    simp [hother]

/-- C1, an instance: the identity `1/c/v` claims a resource from an empty tag
snapshot in a world where every call succeeds. -/
theorem TryOwnFromTags_unclaimed_claims_witness :
    ((NewDefaultCloudWithTagging identityA).TryOwnFromTags quietWorld "arn:R" ∅).1 =
        (true, none) ∧
      (((NewDefaultCloudWithTagging identityA).TryOwnFromTags quietWorld "arn:R" ∅).2.tags
        (some "arn:R")).lookup TagManagedBy = some (some "1/c/v") :=
  ⟨(TryOwnFromTags_unclaimed_claims identityA quietWorld "arn:R" ∅ (Or.inl rfl) rfl).1,
    by decide⟩

/-- C2: for every identity, resource and tag set whose ManagedBy value is a
non-empty string, `TryOwnFromTags` issues no call to the gateway (the remote
world, its record of calls included, is left as it was), returns no error, and
returns true exactly when that value is string-equal to the token of the
identity; repeating the call gives the same result. -/
theorem TryOwnFromTags_claimed_no_write (cfg : CloudConfig) (w : World) (arn : String)
    (tags : Tags) (managedBy : String)
    (hm : tags.lookup TagManagedBy = some (some managedBy)) (hne : managedBy ≠ "") :
    ((NewDefaultCloudWithTagging cfg).TryOwnFromTags w arn tags).2 = w ∧
    ((NewDefaultCloudWithTagging cfg).TryOwnFromTags w arn tags).2.calls = w.calls ∧
    ((NewDefaultCloudWithTagging cfg).TryOwnFromTags w arn tags).1.2 = none ∧
    (((NewDefaultCloudWithTagging cfg).TryOwnFromTags w arn tags).1.1 = true ↔
      managedBy = cfg.AccountId ++ "/" ++ cfg.ClusterName ++ "/" ++ cfg.VpcId) ∧
    (NewDefaultCloudWithTagging cfg).TryOwnFromTags
        ((NewDefaultCloudWithTagging cfg).TryOwnFromTags w arn tags).2 arn tags =
      (NewDefaultCloudWithTagging cfg).TryOwnFromTags w arn tags := by
  have hv : (NewDefaultCloudWithTagging cfg).getManagedByFromTags tags = managedBy := by
    unfold defaultCloud.getManagedByFromTags
    rw [hm]
  have hrun : (NewDefaultCloudWithTagging cfg).TryOwnFromTags w arn tags =
      ((decide (managedBy = getManagedByTag cfg), none), w) := by
    simp only [defaultCloud.TryOwnFromTags, hv, if_neg hne, defaultCloud.isOwner]
    rfl
  rw [hrun]
  refine ⟨rfl, rfl, rfl, ?_, hrun⟩
  simp [getManagedByTag]

/-- C2, the example of the claim: ManagedBy `111111/clusterB/vpc-b` against the
token `222222/clusterA/vpc-a` gives false and no call. -/
theorem TryOwnFromTags_claimed_no_write_witness :
    getManagedByTag identityClusterA = "222222/clusterA/vpc-a" ∧
      ((NewDefaultCloudWithTagging identityClusterA).TryOwnFromTags quietWorld "arn:R"
        tagsOfClusterB).1 = (false, none) ∧
      ((NewDefaultCloudWithTagging identityClusterA).TryOwnFromTags quietWorld "arn:R"
        tagsOfClusterB).2.calls = [] :=
  ⟨by decide, by decide,
    (TryOwnFromTags_claimed_no_write identityClusterA quietWorld "arn:R" tagsOfClusterB
      "111111/clusterB/vpc-b" (by decide) (by decide)).2.1⟩

/-- C3: `TryOwn` returns an error exactly when the tag fetch fails, or the
fetched tags are Unclaimed and the claim write fails; the error returned is the
error of the gateway; whenever an error is returned the boolean result is
false; and when the fetch fails the fetch is the only call issued, so no write
is issued. -/
theorem TryOwn_error_iff (cfg : CloudConfig) (w : World) (arn : String) :
    (∀ e, ((NewDefaultCloudWithTagging cfg).TryOwn w arn).1.2 = some e ↔
      ((Lattice.ListTagsForResourceWithContext w (some arn)).1 = Except.error e ∨
        ∃ tags, (Lattice.ListTagsForResourceWithContext w (some arn)).1 = Except.ok tags ∧
          Unclaimed tags ∧
          (Lattice.TagResourceWithContext (Lattice.ListTagsForResourceWithContext w (some arn)).2
            (some arn) (NewDefaultCloudWithTagging cfg).DefaultTags).1 = Except.error e)) ∧
    (∀ e, ((NewDefaultCloudWithTagging cfg).TryOwn w arn).1.2 = some e →
      ((NewDefaultCloudWithTagging cfg).TryOwn w arn).1.1 = false) ∧
    (∀ e, (Lattice.ListTagsForResourceWithContext w (some arn)).1 = Except.error e →
      ((NewDefaultCloudWithTagging cfg).TryOwn w arn).2.calls =
        w.calls ++ [Call.ListTagsForResource (some arn)]) := by
  cases hf : w.faults.head?.join with
  | some e1 =>
    have hrun : (NewDefaultCloudWithTagging cfg).TryOwn w arn =
        ((false, some e1), (w.receive (Call.ListTagsForResource (some arn))).2) := by
      simp only [defaultCloud.TryOwn, defaultCloud.getTags, ListTags_fail w _ e1 hf]
    rw [hrun, ListTags_fail w _ e1 hf]
    refine ⟨?_, ?_, ?_⟩
    · intro e
      constructor
      · intro h
        left
        simpa using h
      · rintro (h | ⟨tags, h, _⟩)
        · simpa using h
        · cases h
    · intro e _
      rfl
    · intro e _
      rfl
  | none =>
    have hfetch := ListTags_succeed w (some arn) hf
    have hrun : (NewDefaultCloudWithTagging cfg).TryOwn w arn =
        (NewDefaultCloudWithTagging cfg).TryOwnFromTags
          (w.receive (Call.ListTagsForResource (some arn))).2 arn (w.tags (some arn)) := by
      simp only [defaultCloud.TryOwn, defaultCloud.getTags, hfetch]
    rw [hrun, hfetch]
    by_cases hm : (NewDefaultCloudWithTagging cfg).getManagedByFromTags (w.tags (some arn)) = ""
    · have hun : Unclaimed (w.tags (some arn)) := (getManagedByFromTags_eq_empty_iff _ _).mp hm
      cases hf2 : (w.receive (Call.ListTagsForResource (some arn))).2.faults.head?.join with
      | some e2 =>
        have hw := TagResource_fail (w.receive (Call.ListTagsForResource (some arn))).2 (some arn)
          (NewDefaultCloudWithTagging cfg).DefaultTags e2 hf2
        have hown : (NewDefaultCloudWithTagging cfg).TryOwnFromTags
            (w.receive (Call.ListTagsForResource (some arn))).2 arn (w.tags (some arn)) =
            ((false, some e2),
              ((w.receive (Call.ListTagsForResource (some arn))).2.receive
                (Call.TagResource (some arn) (NewDefaultCloudWithTagging cfg).DefaultTags)).2) := by
          simp only [defaultCloud.TryOwnFromTags, hm, if_true, defaultCloud.ownResource, hw]
        rw [hown, hw]
        refine ⟨?_, ?_, ?_⟩
        · intro e
          constructor
          · intro h
            right
            exact ⟨w.tags (some arn), rfl, hun, by simpa using h⟩
          · rintro (h | ⟨tags, _, _, h⟩)
            · cases h
            · simpa using h
        · intro e _
          rfl
        · intro e h
          cases h
      | none =>
        have hw := TagResource_succeed (w.receive (Call.ListTagsForResource (some arn))).2
          (some arn) (NewDefaultCloudWithTagging cfg).DefaultTags hf2
        have hown : ((NewDefaultCloudWithTagging cfg).TryOwnFromTags
            (w.receive (Call.ListTagsForResource (some arn))).2 arn (w.tags (some arn))).1 =
            (true, none) := by
          simp only [defaultCloud.TryOwnFromTags, hm, if_true, defaultCloud.ownResource, hw]
        rw [hown, hw]
        refine ⟨?_, ?_, ?_⟩
        · intro e
          constructor
          · intro h
            cases h
          · rintro (h | ⟨tags, _, _, h⟩)
            · cases h
            · cases h
        · intro e h
          cases h
        · intro e h
          cases h
    · have hun : ¬ Unclaimed (w.tags (some arn)) :=
        fun h => hm ((getManagedByFromTags_eq_empty_iff _ _).mpr h)
      have hown : (NewDefaultCloudWithTagging cfg).TryOwnFromTags
          (w.receive (Call.ListTagsForResource (some arn))).2 arn (w.tags (some arn)) =
          (((NewDefaultCloudWithTagging cfg).isOwner
              ((NewDefaultCloudWithTagging cfg).getManagedByFromTags (w.tags (some arn))), none),
            (w.receive (Call.ListTagsForResource (some arn))).2) := by
        simp only [defaultCloud.TryOwnFromTags, if_neg hm]
      rw [hown]
      refine ⟨?_, ?_, ?_⟩
      · intro e
        constructor
        · intro h
          cases h
        · rintro (h | ⟨tags, h, hu, _⟩)
          · cases h
          · cases h
            exact absurd hu hun
      · intro e h
        cases h
      · intro e h
        cases h

/-- C3, two instances: a failed fetch, and a failed claim write after a fetch
of Unclaimed tags; each returns false with the error of the gateway. -/
theorem TryOwn_error_iff_witness :
    ((NewDefaultCloudWithTagging identityA).TryOwn throttledWorld "arn:R").1 =
        (false, some { msg := "throttled" }) ∧
      ((NewDefaultCloudWithTagging identityA).TryOwn throttledWorld "arn:R").2.calls =
        [Call.ListTagsForResource (some "arn:R")] ∧
      ((NewDefaultCloudWithTagging identityA).TryOwn deniedWriteWorld "arn:R").1.2 =
        some { msg := "access denied" } ∧
      ((NewDefaultCloudWithTagging identityA).TryOwn deniedWriteWorld "arn:R").1.1 = false :=
  ⟨by decide,
    (TryOwn_error_iff identityA throttledWorld "arn:R").2.2 { msg := "throttled" } rfl,
    ((TryOwn_error_iff identityA deniedWriteWorld "arn:R").1 { msg := "access denied" }).mpr
      (Or.inr ⟨∅, rfl, Or.inl rfl, rfl⟩),
    by decide⟩

theorem nextSucceed_head (w : World) (n : Nat) (h : w.nextSucceed (n + 1)) :
    w.faults.head?.join = none := by
  unfold World.nextSucceed at h
  cases hfs : w.faults with
  | nil => rfl
  | cons f fs =>
    rw [hfs] at h
    have := h f (by simp)
    subst this
    rfl

theorem nextSucceed_tail (w w1 : World) (n : Nat) (h : w.nextSucceed (n + 1))
    (hw : w1.faults = w.faults.tail) : w1.nextSucceed n := by
  unfold World.nextSucceed at *
  rw [hw]
  cases hfs : w.faults with
  | nil => simp
  | cons f fs =>
    rw [hfs] at h
    intro g hg
    exact h g (by simp [List.take_succ_cons]; right; simpa using hg)

theorem lookup_assignAll_DefaultTags (cfg : CloudConfig) (stored : Tags) (k : String) :
    (assignAll stored (NewDefaultCloudWithTagging cfg).DefaultTags.entries).lookup k =
      if k = TagManagedBy then some (some (getManagedByTag cfg)) else stored.lookup k := by
  rw [lookup_assignAll _ _ _ (NewDefaultCloudWithTagging cfg).DefaultTags.nodupKeys,
    DefaultTags_entries]
  by_cases hk : k = TagManagedBy
  · subst hk
    simp [List.dlookup_cons_eq]
  · rw [List.dlookup_cons_ne _ _ hk]
    simp [hk]

theorem getManagedByFromTags_of_lookup (c : defaultCloud) (tags : Tags) (m : String)
    (h : tags.lookup TagManagedBy = some (some m)) : c.getManagedByFromTags tags = m := by
  unfold defaultCloud.getManagedByFromTags
  rw [h]

theorem IsArnManaged_of_fetch (c : defaultCloud) (w : World) (arn : String)
    (h : w.faults.head?.join = none) :
    c.IsArnManaged w arn =
      ((c.isOwner (c.getManagedByFromTags (w.tags (some arn))), none),
        (w.receive (Call.ListTagsForResource (some arn))).2) := by
  simp only [defaultCloud.IsArnManaged, defaultCloud.getTags, ListTags_succeed w _ h]

theorem TryOwn_of_fetch (c : defaultCloud) (w : World) (arn : String)
    (h : w.faults.head?.join = none) :
    c.TryOwn w arn =
      c.TryOwnFromTags (w.receive (Call.ListTagsForResource (some arn))).2 arn
        (w.tags (some arn)) := by
  simp only [defaultCloud.TryOwn, defaultCloud.getTags, ListTags_succeed w _ h]

theorem TryOwnFromTags_of_unclaimed (c : defaultCloud) (w : World) (arn : String) (tags : Tags)
    (hu : Unclaimed tags) (h : w.faults.head?.join = none) :
    c.TryOwnFromTags w arn tags =
      ((true, none),
        { (w.receive (Call.TagResource (some arn) c.DefaultTags)).2 with
          tags := fun a =>
            if a = some arn then assignAll (w.tags a) c.DefaultTags.entries else w.tags a }) := by
  have hm := (getManagedByFromTags_eq_empty_iff c tags).mpr hu
  simp only [defaultCloud.TryOwnFromTags, hm, if_true, defaultCloud.ownResource,
    TagResource_succeed w _ _ h]

theorem TryOwnFromTags_of_claimed (c : defaultCloud) (w : World) (arn : String) (tags : Tags)
    (hu : c.getManagedByFromTags tags ≠ "") :
    c.TryOwnFromTags w arn tags = ((c.isOwner (c.getManagedByFromTags tags), none), w) := by
  simp only [defaultCloud.TryOwnFromTags, if_neg hu]

/-- C7: `IsArnManaged` issues the tag fetch and nothing else, so it never
issues a write and leaves the stored tags as they are; and when the fetch
succeeds it returns no error and returns true exactly when the ManagedBy value
of the fetched tags, taken as the empty string when the key is absent or its
value is null, is string-equal to the token `accountId/clusterName/vpcId`; in
particular it returns false for a resource with no ManagedBy tag, whatever the
identity. -/
theorem IsArnManaged_iff_token (cfg : CloudConfig) (w : World) (arn : String) :
    ((NewDefaultCloudWithTagging cfg).IsArnManaged w arn).2.calls =
      w.calls ++ [Call.ListTagsForResource (some arn)] ∧
    ((NewDefaultCloudWithTagging cfg).IsArnManaged w arn).2.tags = w.tags ∧
    (∀ tags, (Lattice.ListTagsForResourceWithContext w (some arn)).1 = Except.ok tags →
      ((NewDefaultCloudWithTagging cfg).IsArnManaged w arn).1.2 = none ∧
      (((NewDefaultCloudWithTagging cfg).IsArnManaged w arn).1.1 = true ↔
        aws.StringValue (Tags.index tags TagManagedBy) =
          cfg.AccountId ++ "/" ++ cfg.ClusterName ++ "/" ++ cfg.VpcId) ∧
      (tags.lookup TagManagedBy = none →
        ((NewDefaultCloudWithTagging cfg).IsArnManaged w arn).1.1 = false)) := by
  cases hf : w.faults.head?.join with
  | some e =>
    have hrun : (NewDefaultCloudWithTagging cfg).IsArnManaged w arn =
        ((false, some e), (w.receive (Call.ListTagsForResource (some arn))).2) := by
      simp only [defaultCloud.IsArnManaged, defaultCloud.getTags, ListTags_fail w _ e hf]
    rw [hrun, ListTags_fail w _ e hf]
    refine ⟨rfl, rfl, ?_⟩
    intro tags h
    cases h
  | none =>
    rw [IsArnManaged_of_fetch _ w arn hf, ListTags_succeed w _ hf]
    refine ⟨rfl, rfl, ?_⟩
    intro tags h
    have htags : w.tags (some arn) = tags := by
      simpa using h
    rw [htags]
    have hiff : (NewDefaultCloudWithTagging cfg).isOwner
        ((NewDefaultCloudWithTagging cfg).getManagedByFromTags tags) = true ↔
        aws.StringValue (Tags.index tags TagManagedBy) =
          cfg.AccountId ++ "/" ++ cfg.ClusterName ++ "/" ++ cfg.VpcId := by
      rw [getManagedByFromTags_eq]
      simp [defaultCloud.isOwner, NewDefaultCloudWithTagging, getManagedByTag]
    refine ⟨rfl, hiff, ?_⟩
    intro hnone
    have hne := getManagedByTag_ne_empty cfg
    have hval : (NewDefaultCloudWithTagging cfg).getManagedByFromTags tags = "" :=
      (getManagedByFromTags_eq_empty_iff _ tags).mpr (Or.inl hnone)
    show (NewDefaultCloudWithTagging cfg).isOwner
      ((NewDefaultCloudWithTagging cfg).getManagedByFromTags tags) = false
    rw [hval]
    simp only [defaultCloud.isOwner, NewDefaultCloudWithTagging, decide_eq_false_iff_not]
    exact fun h => hne h.symm

/-- C7, two instances: the owner of `arn:R` is told true, and an identity asking
about a resource with no tags is told false; each issues one fetch. -/
theorem IsArnManaged_iff_token_witness :
    ((NewDefaultCloudWithTagging identityA).IsArnManaged ownedWorld "arn:R").1 = (true, none) ∧
      ((NewDefaultCloudWithTagging identityB).IsArnManaged ownedWorld "arn:R").1 =
        (false, none) ∧
      ((NewDefaultCloudWithTagging identityA).IsArnManaged quietWorld "arn:R").1.1 = false ∧
      ((NewDefaultCloudWithTagging identityA).IsArnManaged ownedWorld "arn:R").2.calls =
        [Call.ListTagsForResource (some "arn:R")] :=
  ⟨by decide, by decide,
    ((IsArnManaged_iff_token identityA quietWorld "arn:R").2.2 ∅ rfl).2.2 (by decide),
    (IsArnManaged_iff_token identityA ownedWorld "arn:R").1⟩

/-- C4: over a tag store whose calls succeed and whose writes are additive, for
every two identities A and B with different tokens and every resource R whose
stored tags have no ManagedBy entry: `A.TryOwn(R)` returns true and leaves the
tags of R with ManagedBy equal to the token of A, every other key of R as it
was; a following `A.IsArnManaged(R)` returns true; and a following
`B.TryOwn(R)` returns false and leaves the stored tags unchanged, ManagedBy
still being the token of A. -/
theorem ownership_end_to_end (cfgA cfgB : CloudConfig) (w : World) (R : String)
    (hdiff : getManagedByTag cfgA ≠ getManagedByTag cfgB)
    (hfree : (w.tags (some R)).lookup TagManagedBy = none)
    (hsucceed : w.nextSucceed 4) :
    let claim := (NewDefaultCloudWithTagging cfgA).TryOwn w R
    let check := (NewDefaultCloudWithTagging cfgA).IsArnManaged claim.2 R
    let rival := (NewDefaultCloudWithTagging cfgB).TryOwn check.2 R
    claim.1 = (true, none) ∧
    (claim.2.tags (some R)).lookup TagManagedBy = some (some (getManagedByTag cfgA)) ∧
    (∀ k, k ≠ TagManagedBy → (claim.2.tags (some R)).lookup k = (w.tags (some R)).lookup k) ∧
    check.1 = (true, none) ∧
    rival.1 = (false, none) ∧
    rival.2.tags = claim.2.tags ∧
    (rival.2.tags (some R)).lookup TagManagedBy = some (some (getManagedByTag cfgA)) := by
  intro claim check rival
  have hf0 := nextSucceed_head w 3 hsucceed
  have hs1 : (w.receive (Call.ListTagsForResource (some R))).2.nextSucceed 3 :=
    nextSucceed_tail w _ 3 hsucceed rfl
  have hf1 := nextSucceed_head _ 2 hs1
  have hclaim : claim = ((true, none),
      { ((w.receive (Call.ListTagsForResource (some R))).2.receive
          (Call.TagResource (some R) (NewDefaultCloudWithTagging cfgA).DefaultTags)).2 with
        tags := fun a =>
          if a = some R then
            assignAll (w.tags a) (NewDefaultCloudWithTagging cfgA).DefaultTags.entries
          else w.tags a }) := by
    show (NewDefaultCloudWithTagging cfgA).TryOwn w R = _
    rw [TryOwn_of_fetch _ w R hf0, TryOwnFromTags_of_unclaimed _ _ R _ (Or.inl hfree) hf1]
    rfl
  have hs2 : claim.2.nextSucceed 2 := by
    rw [hclaim]
    exact nextSucceed_tail _ _ 2 hs1 rfl
  have hstored : (claim.2.tags (some R)).lookup TagManagedBy =
      some (some (getManagedByTag cfgA)) := by
    rw [hclaim]
    simp only [if_true]
    rw [lookup_assignAll_DefaultTags]
    simp
  have hother : ∀ k, k ≠ TagManagedBy →
      (claim.2.tags (some R)).lookup k = (w.tags (some R)).lookup k := by
    intro k hk
    rw [hclaim]
    simp only [if_true]
    rw [lookup_assignAll_DefaultTags]
    simp [hk]
  have hf2 := nextSucceed_head _ 1 hs2
  have hcheck : check = ((true, none),
      (claim.2.receive (Call.ListTagsForResource (some R))).2) := by
    show (NewDefaultCloudWithTagging cfgA).IsArnManaged claim.2 R = _
    rw [IsArnManaged_of_fetch _ _ R hf2, getManagedByFromTags_of_lookup _ _ _ hstored]
    simp [defaultCloud.isOwner, NewDefaultCloudWithTagging]
  have hs3 : check.2.nextSucceed 1 := by
    rw [hcheck]
    exact nextSucceed_tail _ _ 1 hs2 rfl
  have hf3 := nextSucceed_head _ 0 hs3
  have hstored3 : (check.2.tags (some R)).lookup TagManagedBy =
      some (some (getManagedByTag cfgA)) := by
    rw [hcheck]
    exact hstored
  have hrival : rival = ((false, none),
      (check.2.receive (Call.ListTagsForResource (some R))).2) := by
    show (NewDefaultCloudWithTagging cfgB).TryOwn check.2 R = _
    have hval := getManagedByFromTags_of_lookup (NewDefaultCloudWithTagging cfgB) _ _ hstored3
    rw [TryOwn_of_fetch _ _ R hf3,
      TryOwnFromTags_of_claimed _ _ R _ (by rw [hval]; exact getManagedByTag_ne_empty cfgA),
      hval]
    simp [defaultCloud.isOwner, NewDefaultCloudWithTagging, hdiff]
  refine ⟨by rw [hclaim], hstored, hother, by rw [hcheck], by rw [hrival], ?_, ?_⟩
  · rw [hrival, hcheck]
    rfl
  · rw [hrival]
    exact hstored3

/-- C4, the example of the claim: A is account `1`, cluster `c`, VPC `v`, B has
account `2`, and R has no tags; after the claim of A the tags of R are exactly
ManagedBy `1/c/v`, A is told it manages R, and B is refused, the tags staying
as they are. -/
theorem ownership_end_to_end_witness :
    getManagedByTag identityA ≠ getManagedByTag identityB ∧
      (((NewDefaultCloudWithTagging identityA).TryOwn quietWorld "arn:R").2.tags
        (some "arn:R")).entries = [⟨TagManagedBy, some "1/c/v"⟩] ∧
      ((NewDefaultCloudWithTagging identityA).TryOwn quietWorld "arn:R").1 = (true, none) ∧
      ((NewDefaultCloudWithTagging identityA).IsArnManaged
        ((NewDefaultCloudWithTagging identityA).TryOwn quietWorld "arn:R").2 "arn:R").1 =
          (true, none) ∧
      ((NewDefaultCloudWithTagging identityB).TryOwn
        ((NewDefaultCloudWithTagging identityA).IsArnManaged
          ((NewDefaultCloudWithTagging identityA).TryOwn quietWorld "arn:R").2 "arn:R").2
        "arn:R").1 = (false, none) ∧
      (((NewDefaultCloudWithTagging identityB).TryOwn
        ((NewDefaultCloudWithTagging identityA).IsArnManaged
          ((NewDefaultCloudWithTagging identityA).TryOwn quietWorld "arn:R").2 "arn:R").2
        "arn:R").2.tags (some "arn:R")).entries = [⟨TagManagedBy, some "1/c/v"⟩] :=
  ⟨by decide, by decide,
    (ownership_end_to_end identityA identityB quietWorld "arn:R" (by decide) (by decide)
      (by simp [World.nextSucceed, quietWorld])).1,
    (ownership_end_to_end identityA identityB quietWorld "arn:R" (by decide) (by decide)
      (by simp [World.nextSucceed, quietWorld])).2.2.2.1,
    (ownership_end_to_end identityA identityB quietWorld "arn:R" (by decide) (by decide)
      (by simp [World.nextSucceed, quietWorld])).2.2.2.2.1,
    by decide⟩

/-- C10: over a tag store whose calls succeed and whose writes are additive and
last-write-wins, for every two identities A and B with different tokens and
every resource R: when both are handed the same tag snapshot with no ManagedBy
entry and `A.TryOwnFromTags` runs before `B.TryOwnFromTags`, both calls return
true, both issue a claim write, and the stored ManagedBy of R ends equal to the
token of B and not to the token of A, which A had stored in between. -/
theorem stale_snapshot_last_write_wins (cfgA cfgB : CloudConfig) (w : World) (R : String)
    (snapshot : Tags)
    (hdiff : getManagedByTag cfgA ≠ getManagedByTag cfgB)
    (hsnap : snapshot.lookup TagManagedBy = none)
    (hsucceed : w.nextSucceed 2) :
    let first := (NewDefaultCloudWithTagging cfgA).TryOwnFromTags w R snapshot
    let second := (NewDefaultCloudWithTagging cfgB).TryOwnFromTags first.2 R snapshot
    first.1 = (true, none) ∧
    second.1 = (true, none) ∧
    second.2.calls = w.calls ++
      [Call.TagResource (some R) (NewDefaultCloudWithTagging cfgA).DefaultTags,
        Call.TagResource (some R) (NewDefaultCloudWithTagging cfgB).DefaultTags] ∧
    (first.2.tags (some R)).lookup TagManagedBy = some (some (getManagedByTag cfgA)) ∧
    (second.2.tags (some R)).lookup TagManagedBy = some (some (getManagedByTag cfgB)) ∧
    (second.2.tags (some R)).lookup TagManagedBy ≠ some (some (getManagedByTag cfgA)) := by
  intro first second
  have hf0 := nextSucceed_head w 1 hsucceed
  have hfirst : first = ((true, none),
      { (w.receive
          (Call.TagResource (some R) (NewDefaultCloudWithTagging cfgA).DefaultTags)).2 with
        tags := fun a =>
          if a = some R then
            assignAll (w.tags a) (NewDefaultCloudWithTagging cfgA).DefaultTags.entries
          else w.tags a }) :=
    TryOwnFromTags_of_unclaimed _ w R snapshot (Or.inl hsnap) hf0
  have hs1 : first.2.nextSucceed 1 := by
    rw [hfirst]
    exact nextSucceed_tail w _ 1 hsucceed rfl
  have hf1 := nextSucceed_head _ 0 hs1
  have hsecond : second = ((true, none),
      { (first.2.receive
          (Call.TagResource (some R) (NewDefaultCloudWithTagging cfgB).DefaultTags)).2 with
        tags := fun a =>
          if a = some R then
            assignAll (first.2.tags a) (NewDefaultCloudWithTagging cfgB).DefaultTags.entries
          else first.2.tags a }) :=
    TryOwnFromTags_of_unclaimed _ first.2 R snapshot (Or.inl hsnap) hf1
  have hA : (first.2.tags (some R)).lookup TagManagedBy =
      some (some (getManagedByTag cfgA)) := by
    rw [hfirst]
    simp only [if_true]
    rw [lookup_assignAll_DefaultTags]
    simp
  have hB : (second.2.tags (some R)).lookup TagManagedBy =
      some (some (getManagedByTag cfgB)) := by
    rw [hsecond]
    simp only [if_true]
    rw [lookup_assignAll_DefaultTags]
    simp
  refine ⟨by rw [hfirst], by rw [hsecond], ?_, hA, hB, ?_⟩
  · rw [hsecond, hfirst]
    simp [World.receive]
  · rw [hB]
    intro h
    exact hdiff (Option.some.inj (Option.some.inj h)).symm

/-- C10, an instance: `1/c/v` and then `2/c/v` claim `arn:R` from the same
empty snapshot; both are told true and the resource ends owned by `2/c/v`. -/
theorem stale_snapshot_last_write_wins_witness :
    ((NewDefaultCloudWithTagging identityA).TryOwnFromTags quietWorld "arn:R" ∅).1 =
        (true, none) ∧
      ((NewDefaultCloudWithTagging identityB).TryOwnFromTags
        ((NewDefaultCloudWithTagging identityA).TryOwnFromTags quietWorld "arn:R" ∅).2
        "arn:R" ∅).1 = (true, none) ∧
      (((NewDefaultCloudWithTagging identityB).TryOwnFromTags
        ((NewDefaultCloudWithTagging identityA).TryOwnFromTags quietWorld "arn:R" ∅).2
        "arn:R" ∅).2.tags (some "arn:R")).entries = [⟨TagManagedBy, some "2/c/v"⟩] :=
  ⟨(stale_snapshot_last_write_wins identityA identityB quietWorld "arn:R" ∅ (by decide)
      (by decide) (by simp [World.nextSucceed, quietWorld])).1,
    (stale_snapshot_last_write_wins identityA identityB quietWorld "arn:R" ∅ (by decide)
      (by decide) (by simp [World.nextSucceed, quietWorld])).2.1,
    by decide⟩

/-! ## Discovery in a private VPC -/

theorem receive_nextSucceed (w : World) (call : Call) (n : Nat) (h : w.nextSucceed (n + 1)) :
    (w.receive call).2.nextSucceed n :=
  nextSucceed_tail w _ n h rfl

theorem lookup_foldl_insert (f : String → Tags) (a : String) :
    ∀ (arns : List String) (acc : TagsByArn),
      (arns.foldl (fun m x => m.insert x (f x)) acc).lookup a =
        if a ∈ arns then some (f a) else acc.lookup a
  | [], acc => by simp
  | x :: rest, acc => by
    rw [List.foldl_cons, lookup_foldl_insert f a rest]
    by_cases hx : a = x
    · subst hx
      simp [AList.lookup_insert]
    · simp [hx, AList.lookup_insert_ne hx]

theorem FindTagsForARNsLoop_succeed (c : defaultCloud) :
    ∀ (arns : List String) (w : World) (acc : TagsByArn), w.nextSucceed arns.length →
      (c.FindTagsForARNsLoop w acc arns).1 =
          (arns.foldl (fun m x => m.insert x (w.tags (some x))) acc, none) ∧
        (c.FindTagsForARNsLoop w acc arns).2.calls =
          w.calls ++ arns.map (fun a => Call.ListTagsForResource (some a))
  | [], w, acc, _ => by simp [defaultCloud.FindTagsForARNsLoop]
  | arn :: rest, w, acc, h => by
    have hf := nextSucceed_head w rest.length h
    have ih := FindTagsForARNsLoop_succeed c rest
      (w.receive (Call.ListTagsForResource (some arn))).2 (acc.insert arn (w.tags (some arn)))
      (receive_nextSucceed w _ _ h)
    simp only [defaultCloud.FindTagsForARNsLoop, aws.String, ListTags_succeed w _ hf]
    rw [ih.1, ih.2]
    simp [World.receive]

theorem getElem?_zero_join {α : Type} (l : List (Option α)) (e : α)
    (h : l[0]? = some (some e)) : l.head?.join = some e := by
  cases l with
  | nil => simp at h
  | cons x xs =>
    simp at h
    subst h
    rfl

theorem FindTagsForARNsLoop_fail (c : defaultCloud) (e : Error) :
    ∀ (arns : List String) (w : World) (acc : TagsByArn) (i : Nat), i < arns.length →
      w.nextSucceed i → w.faults[i]? = some (some e) →
      (c.FindTagsForARNsLoop w acc arns).1 = (∅, some e) ∧
        (c.FindTagsForARNsLoop w acc arns).2.calls =
          w.calls ++ (arns.take (i + 1)).map (fun a => Call.ListTagsForResource (some a))
  | [], _, _, i, hi, _, _ => by simp at hi
  | arn :: rest, w, acc, 0, _, _, he => by
    have hf := getElem?_zero_join w.faults e he
    simp only [defaultCloud.FindTagsForARNsLoop, aws.String, ListTags_fail w _ e hf]
    simp [World.receive]
  | arn :: rest, w, acc, i + 1, hi, hs, he => by
    have hf := nextSucceed_head w i hs
    have he1 : (w.receive (Call.ListTagsForResource (some arn))).2.faults[i]? =
        some (some e) := by
      show w.faults.tail[i]? = _
      rw [← he]
      cases w.faults <;> simp
    have ih := FindTagsForARNsLoop_fail c e rest
      (w.receive (Call.ListTagsForResource (some arn))).2 (acc.insert arn (w.tags (some arn)))
      i (by simpa using hi) (receive_nextSucceed w _ _ hs) he1
    simp only [defaultCloud.FindTagsForARNsLoop, aws.String, ListTags_succeed w _ hf]
    rw [ih.1, ih.2]
    simp [World.receive]

theorem FindTagsForARNsLoop_reads_only (c : defaultCloud) :
    ∀ (arns : List String) (w : World) (acc : TagsByArn),
      (c.FindTagsForARNsLoop w acc arns).2.tags = w.tags ∧
        ∃ n, (c.FindTagsForARNsLoop w acc arns).2.calls =
          w.calls ++ (arns.take n).map (fun a => Call.ListTagsForResource (some a))
  | [], w, acc => ⟨rfl, 0, by simp [defaultCloud.FindTagsForARNsLoop]⟩
  | arn :: rest, w, acc => by
    cases hf : w.faults.head?.join with
    | some e =>
      simp only [defaultCloud.FindTagsForARNsLoop, aws.String, ListTags_fail w _ e hf]
      exact ⟨rfl, 1, by simp [World.receive]⟩
    | none =>
      obtain ⟨ht, n, hn⟩ := FindTagsForARNsLoop_reads_only c rest
        (w.receive (Call.ListTagsForResource (some arn))).2 (acc.insert arn (w.tags (some arn)))
      simp only [defaultCloud.FindTagsForARNsLoop, aws.String, ListTags_succeed w _ hf]
      refine ⟨ht, n + 1, ?_⟩
      rw [hn]
      simp [World.receive]

/-- C9: for an identity in a private VPC and every list of refs,
`FindTagsForARNs` issues per-ref tag fetches in list order and nothing else, so
never a write, and leaves the stored tags as they are. If the fetches of the
first `i` refs succeed and the fetch of the next ref fails, it returns the error
of that fetch with an empty mapping, and the refs after it are not fetched. If
all fetches succeed, it returns no error and a mapping whose key set is
exactly the set of refs of the list, each mapped to the tags fetched for it. -/
theorem FindTagsForARNs_private (cfg : CloudConfig) (w : World) (arns : List String)
    (hprivate : cfg.PrivateVPC = true) :
    ((NewDefaultCloudWithTagging cfg).FindTagsForARNs w arns).2.tags = w.tags ∧
    (∃ n, ((NewDefaultCloudWithTagging cfg).FindTagsForARNs w arns).2.calls =
      w.calls ++ (arns.take n).map (fun a => Call.ListTagsForResource (some a))) ∧
    (∀ i e, i < arns.length → w.nextSucceed i → w.faults[i]? = some (some e) →
      ((NewDefaultCloudWithTagging cfg).FindTagsForARNs w arns).1 = (∅, some e) ∧
      ((NewDefaultCloudWithTagging cfg).FindTagsForARNs w arns).2.calls =
        w.calls ++ (arns.take (i + 1)).map (fun a => Call.ListTagsForResource (some a))) ∧
    (w.nextSucceed arns.length →
      ((NewDefaultCloudWithTagging cfg).FindTagsForARNs w arns).1.2 = none ∧
      (∀ a, a ∈ ((NewDefaultCloudWithTagging cfg).FindTagsForARNs w arns).1.1.keys ↔
        a ∈ arns) ∧
      (∀ a, a ∈ arns →
        ((NewDefaultCloudWithTagging cfg).FindTagsForARNs w arns).1.1.lookup a =
          some (w.tags (some a))) ∧
      ((NewDefaultCloudWithTagging cfg).FindTagsForARNs w arns).2.calls =
        w.calls ++ arns.map (fun a => Call.ListTagsForResource (some a))) := by
  have hrun : (NewDefaultCloudWithTagging cfg).FindTagsForARNs w arns =
      (NewDefaultCloudWithTagging cfg).FindTagsForARNsLoop w ∅ arns := by
    simp [defaultCloud.FindTagsForARNs, NewDefaultCloudWithTagging, hprivate]
  rw [hrun]
  obtain ⟨htags, hcalls⟩ := FindTagsForARNsLoop_reads_only (NewDefaultCloudWithTagging cfg) arns w ∅
  refine ⟨htags, hcalls, ?_, ?_⟩
  · intro i e hi hs he
    exact FindTagsForARNsLoop_fail _ e arns w ∅ i hi hs he
  · intro hs
    obtain ⟨hres, hc⟩ := FindTagsForARNsLoop_succeed (NewDefaultCloudWithTagging cfg) arns w ∅ hs
    rw [hres]
    refine ⟨rfl, ?_, ?_, hc⟩
    · intro a
      rw [← AList.mem_keys, ← AList.lookup_isSome, lookup_foldl_insert]
      by_cases ha : a ∈ arns <;> simp [ha]
    · intro a ha
      show AList.lookup a _ = _
      rw [lookup_foldl_insert]
      simp [ha]

/-- C9, two instances: two refs fetched with success give their two tag sets;
and when the second of three fetches fails, the error is returned with an empty
mapping and the third ref is not fetched. -/
theorem FindTagsForARNs_private_witness :
    identityA.PrivateVPC = true ∧
      (((NewDefaultCloudWithTagging identityA).FindTagsForARNs fleetWorld
        ["arn:tg2", "arn:tg3"]).1.1.lookup "arn:tg3" =
          some (fleetWorld.tags (some "arn:tg3"))) ∧
      ((NewDefaultCloudWithTagging identityA).FindTagsForARNs flakyFleetWorld
        ["arn:tg1", "arn:tg2", "arn:tg3"]).1 = (∅, some { msg := "throttled" }) ∧
      ((NewDefaultCloudWithTagging identityA).FindTagsForARNs flakyFleetWorld
        ["arn:tg1", "arn:tg2", "arn:tg3"]).2.calls =
          [Call.ListTagsForResource (some "arn:tg1"),
            Call.ListTagsForResource (some "arn:tg2")] :=
  ⟨rfl,
    ((FindTagsForARNs_private identityA fleetWorld ["arn:tg2", "arn:tg3"] rfl).2.2.2
      (by simp [World.nextSucceed, fleetWorld, quietWorld])).2.2.1 "arn:tg3" (by decide),
    ((FindTagsForARNs_private identityA flakyFleetWorld ["arn:tg1", "arn:tg2", "arn:tg3"]
      rfl).2.2.1 1 { msg := "throttled" } (by decide)
      (by simp [World.nextSucceed, flakyFleetWorld]) rfl).1,
    by rfl⟩

theorem FindTargetGroupARNsLoop_succeed (c : defaultCloud) (query : Tags) :
    ∀ (tgs : List TargetGroupSummary) (w : World) (acc : List String),
      w.nextSucceed tgs.length →
      (c.FindTargetGroupARNsLoop query w acc tgs).1 =
          (acc ++ (tgs.filter (fun tg => containsTags query (w.tags tg.Arn))).map
            (fun tg => aws.StringValue tg.Arn), none) ∧
        (c.FindTargetGroupARNsLoop query w acc tgs).2.calls =
          w.calls ++ tgs.map (fun tg => Call.ListTagsForResource tg.Arn) ∧
        (c.FindTargetGroupARNsLoop query w acc tgs).2.tags = w.tags
  | [], w, acc, _ => by simp [defaultCloud.FindTargetGroupARNsLoop]
  | tg :: rest, w, acc, h => by
    have hf := nextSucceed_head w rest.length h
    have hs := receive_nextSucceed w (Call.ListTagsForResource tg.Arn) _ h
    simp only [defaultCloud.FindTargetGroupARNsLoop, ListTags_succeed w _ hf]
    by_cases hc : containsTags query (w.tags tg.Arn) = true
    · obtain ⟨h1, h2, h3⟩ := FindTargetGroupARNsLoop_succeed c query rest
        (w.receive (Call.ListTagsForResource tg.Arn)).2 (acc ++ [aws.StringValue tg.Arn]) hs
      simp only [hc, if_true]
      rw [h1, h2, h3]
      simp [World.receive, List.filter_cons, hc]
    · obtain ⟨h1, h2, h3⟩ := FindTargetGroupARNsLoop_succeed c query rest
        (w.receive (Call.ListTagsForResource tg.Arn)).2 acc hs
      have hc1 : containsTags query (w.tags tg.Arn) = false := by simpa using hc
      simp only [hc1, Bool.false_eq_true, if_false]
      rw [h1, h2, h3]
      simp [World.receive, List.filter_cons, hc1]

/-- C6: for an identity in a private VPC, every query and every listing of
target groups, when the listing and every per-resource tag fetch succeed,
`FindTargetGroupARNs` returns no error and exactly the refs of the listed target
groups whose fetched tags pass `containsTags query`, in listing order; the
calls it issues are the listing of the target groups of its VPC followed by one
tag fetch per listed target group, so it issues no tag write and no call of the
bulk tagging API, and the stored tags are left as they are. -/
theorem FindTargetGroupARNs_private (cfg : CloudConfig) (w : World) (query : Tags)
    (hprivate : cfg.PrivateVPC = true)
    (hsucceed : w.nextSucceed ((w.targetGroups (some cfg.VpcId)).length + 1)) :
    ((NewDefaultCloudWithTagging cfg).FindTargetGroupARNs w query).1 =
      (((w.targetGroups (some cfg.VpcId)).filter
          (fun tg => containsTags query (w.tags tg.Arn))).map
        (fun tg => aws.StringValue tg.Arn), none) ∧
    ((NewDefaultCloudWithTagging cfg).FindTargetGroupARNs w query).2.calls =
      w.calls ++ Call.ListTargetGroupsAsList (some cfg.VpcId) ::
        (w.targetGroups (some cfg.VpcId)).map (fun tg => Call.ListTagsForResource tg.Arn) ∧
    (∀ call ∈ ((NewDefaultCloudWithTagging cfg).FindTargetGroupARNs w query).2.calls.drop
        w.calls.length, call.isWrite = false ∧ call.isTagging = false) ∧
    ((NewDefaultCloudWithTagging cfg).FindTargetGroupARNs w query).2.tags = w.tags := by
  have hf := nextSucceed_head w _ hsucceed
  have hs := receive_nextSucceed w (Call.ListTargetGroupsAsList (some cfg.VpcId)) _ hsucceed
  have hlist : Lattice.ListTargetGroupsAsList w (some cfg.VpcId) =
      (Except.ok (w.targetGroups (some cfg.VpcId)),
        (w.receive (Call.ListTargetGroupsAsList (some cfg.VpcId))).2) := by
    unfold Lattice.ListTargetGroupsAsList World.receive
    rw [hf]
  have hrun : (NewDefaultCloudWithTagging cfg).FindTargetGroupARNs w query =
      (NewDefaultCloudWithTagging cfg).FindTargetGroupARNsLoop query
        (w.receive (Call.ListTargetGroupsAsList (some cfg.VpcId))).2 []
        (w.targetGroups (some cfg.VpcId)) := by
    simp [defaultCloud.FindTargetGroupARNs, NewDefaultCloudWithTagging, hprivate, aws.String,
      hlist]
  obtain ⟨h1, h2, h3⟩ := FindTargetGroupARNsLoop_succeed (NewDefaultCloudWithTagging cfg) query
    (w.targetGroups (some cfg.VpcId))
    (w.receive (Call.ListTargetGroupsAsList (some cfg.VpcId))).2 [] hs
  have hcalls : ((NewDefaultCloudWithTagging cfg).FindTargetGroupARNs w query).2.calls =
      w.calls ++ Call.ListTargetGroupsAsList (some cfg.VpcId) ::
        (w.targetGroups (some cfg.VpcId)).map (fun tg => Call.ListTagsForResource tg.Arn) := by
    rw [hrun, h2]
    simp [World.receive]
  refine ⟨?_, hcalls, ?_, ?_⟩
  · rw [hrun, h1]
    simp [World.receive]
  · rw [hcalls, List.drop_left]
    intro call hcall
    rcases List.mem_cons.mp hcall with h | h
    · subst h
      exact ⟨rfl, rfl⟩
    · obtain ⟨tg, _, rfl⟩ := List.mem_map.mp h
      exact ⟨rfl, rfl⟩
  · rw [hrun, h3]
    rfl

/-- C6, the example of the claim: of three listed target groups, the two that
carry `app = x` are returned, in listing order. -/
theorem FindTargetGroupARNs_private_witness :
    identityA.PrivateVPC = true ∧
      ((NewDefaultCloudWithTagging identityA).FindTargetGroupARNs fleetWorld
        (AList.singleton "app" (some "x"))).1 = (["arn:tg1", "arn:tg3"], none) ∧
      ((NewDefaultCloudWithTagging identityA).FindTargetGroupARNs fleetWorld
        (AList.singleton "app" (some "x"))).2.calls =
          [Call.ListTargetGroupsAsList (some "v"),
            Call.ListTagsForResource (some "arn:tg1"),
            Call.ListTagsForResource (some "arn:tg2"),
            Call.ListTagsForResource (some "arn:tg3")] :=
  ⟨rfl, by decide,
    (FindTargetGroupARNs_private identityA fleetWorld (AList.singleton "app" (some "x")) rfl
      (by simp [World.nextSucceed, fleetWorld, quietWorld])).2.1⟩

end Cloud
